import Mathlib

/-
Verification development for the Bankier.pl RSS generator
(src/bankier_rss_generator.py).  The script fetches a paginated news
listing, extracts article records from each page, filters them to a
recency window, deduplicates them by guid, sorts them newest-first and
writes an RSS file.  This file gives a shallow embedding of the data
model and of every function the claims touch, and proves or refutes the
claims about them.
-/

namespace BankierRss

/-! ## Configuration constants (lines 21-26 of the source) -/

def BASE_URL : String := "https://www.bankier.pl"

def NEWS_URL : String := "https://www.bankier.pl/wiadomosc/"

def PAGES_TO_SCAN : Nat := 5

def TIME_FILTER_HOURS : Int := 48

def REQUEST_DELAY : Nat := 2

/-! ## Date and time model

Timezone-aware instants are modelled on an absolute timeline of seconds.
A naive (wall-clock) timestamp is a civil date plus time of day; an aware
timestamp is a naive timestamp plus a fixed UTC offset in minutes, and
its position on the absolute timeline is the wall-clock seconds minus the
offset.  This mirrors how Python datetime compares aware datetimes. -/

/-- A naive (offset-free) wall-clock timestamp. -/
structure NaiveDT where
  year : Int
  month : Nat
  day : Nat
  hour : Nat
  minute : Nat
  second : Nat
deriving DecidableEq, Repr

/-- A timezone-aware timestamp: naive wall-clock parts plus a UTC offset
in minutes, as carried by a Python aware datetime. -/
structure AwareDT where
  naive : NaiveDT
  offsetMinutes : Int
deriving DecidableEq, Repr

/-- Days elapsed since 1970-01-01 for a civil date (proleptic Gregorian
calendar), the standard days-from-civil computation used by calendar
libraries. -/
def daysFromCivil (y : Int) (m : Nat) (d : Nat) : Int :=
  let y1 : Int := if m ≤ 2 then y - 1 else y
  let era : Int := (if 0 ≤ y1 then y1 else y1 - 399) / 400
  let yoe : Int := y1 - era * 400
  let mp : Int := (Int.ofNat m + 9) % 12
  let doy : Int := (153 * mp + 2) / 5 + Int.ofNat d - 1
  let doe : Int := yoe * 365 + yoe / 4 - yoe / 100 + doy
  era * 146097 + doe - 719468

/-- Wall-clock seconds of a naive timestamp on the 1970 epoch scale. -/
def naiveToSeconds (n : NaiveDT) : Int :=
  daysFromCivil n.year n.month n.day * 86400
    + (n.hour : Int) * 3600 + (n.minute : Int) * 60 + (n.second : Int)

/-- Absolute (UTC timeline) seconds of an aware timestamp; aware Python
datetimes compare by this value. -/
def instantOf (a : AwareDT) : Int :=
  naiveToSeconds a.naive - a.offsetMinutes * 60

/-- Day of week of a civil date, with Sunday = 0. -/
def dayOfWeek (y : Int) (m : Nat) (d : Nat) : Int :=
  (daysFromCivil y m d + 4) % 7

/-- Day of month of the last Sunday of a 31-day month. -/
def lastSunday (y : Int) (m : Nat) : Nat :=
  31 - (dayOfWeek y m 31).toNat

/-- UTC offset, in minutes, that pytz timezone Europe-Warsaw assigns to a
naive wall-clock timestamp via localize: +120 during summer time, +60
otherwise.  Models the contemporary EU rule of the tz database entry:
summer time runs from the last Sunday of March 03:00 wall clock to the
last Sunday of October 02:00 wall clock; skipped and repeated wall times
resolve to standard time, matching the localize default. -/
def warsawOffset (n : NaiveDT) : Int :=
  let dstStart := naiveToSeconds ⟨n.year, 3, lastSunday n.year 3, 3, 0, 0⟩
  let dstEnd := naiveToSeconds ⟨n.year, 10, lastSunday n.year 10, 2, 0, 0⟩
  let t := naiveToSeconds n
  if dstStart ≤ t ∧ t < dstEnd then 120 else 60

/-! ## Timestamp parsing (parse_datetime, lines 73-84)

The source calls datetime.fromisoformat and, when the result has no
tzinfo, localizes it in Europe/Warsaw; any parse exception yields None.
fromisoformat is embedded below, restricted to the timestamp shapes this
program receives (the source notes the format 2025-12-30T11:44:00+01:00):
a YYYY-MM-DD date, an optional time of day HH:MM with optional seconds,
and an optional signed HH:MM offset.  Fractional seconds and the other ISO
shapes are out of scope of the model and map to the failure result. -/

/-- Parse two decimal digits into a number, returning the rest. -/
def digit2 : List Char → Option (Nat × List Char)
  | c1 :: c2 :: rest =>
    if c1.isDigit && c2.isDigit then
      some ((c1.toNat - 48) * 10 + (c2.toNat - 48), rest)
    else none
  | _ => none

/-- Parse four decimal digits into a number, returning the rest. -/
def digit4 (cs : List Char) : Option (Nat × List Char) :=
  match digit2 cs with
  | none => none
  | some (hi, rest) =>
    match digit2 rest with
    | none => none
    | some (lo, rest2) => some (hi * 100 + lo, rest2)

/-- Consume one expected character. -/
def expectChar (c : Char) : List Char → Option (List Char)
  | [] => none
  | x :: rest => if x = c then some rest else none

/-- Gregorian leap-year test. -/
def isLeapYear (y : Int) : Bool :=
  (y % 4 == 0 && y % 100 != 0) || y % 400 == 0

/-- Number of days of a month. -/
def daysInMonth (y : Int) (m : Nat) : Nat :=
  if m == 2 then (if isLeapYear y then 29 else 28)
  else if m == 4 || m == 6 || m == 9 || m == 11 then 30
  else 31

/-- Parse a HH:MM UTC-offset body (sign already consumed); the offset is
the final component, so the rest must be empty. -/
def parseHHMM (cs : List Char) : Option Int :=
  match digit2 cs with
  | none => none
  | some (oh, r1) =>
    match expectChar ':' r1 with
    | none => none
    | some r2 =>
      match digit2 r2 with
      | none => none
      | some (om, r3) =>
        if r3.isEmpty && decide (oh < 24) && decide (om < 60) then
          some ((oh : Int) * 60 + (om : Int))
        else none

/-- Parse a signed UTC offset. -/
def parseOffset : List Char → Option Int
  | '+' :: rest => parseHHMM rest
  | '-' :: rest => (parseHHMM rest).map Int.neg
  | _ => none

/-- Parse a time of day HH:MM with optional seconds and optional offset. -/
def parseTime (cs : List Char) : Option (Nat × Nat × Nat × Option Int) :=
  match digit2 cs with
  | none => none
  | some (hh, r1) =>
    match expectChar ':' r1 with
    | none => none
    | some r2 =>
      match digit2 r2 with
      | none => none
      | some (mi, r3) =>
        let withSec : Option (Nat × List Char) :=
          match r3 with
          | ':' :: r4 =>
            match digit2 r4 with
            | none => none
            | some (ss, r5) => some (ss, r5)
          | _ => some (0, r3)
        match withSec with
        | none => none
        | some (ss, r6) =>
          if hh < 24 ∧ mi < 60 ∧ ss < 60 then
            match r6 with
            | [] => some (hh, mi, ss, none)
            | _ :: _ =>
              match parseOffset r6 with
              | none => none
              | some off => some (hh, mi, ss, some off)
          else none

/-- Embedding of datetime.fromisoformat on the shapes described above:
the naive parts and, when present, the explicit UTC offset in minutes. -/
def fromisoformat (s : String) : Option (NaiveDT × Option Int) :=
  match digit4 s.data with
  | none => none
  | some (y, r1) =>
    match expectChar '-' r1 with
    | none => none
    | some r2 =>
      match digit2 r2 with
      | none => none
      | some (m, r3) =>
        match expectChar '-' r3 with
        | none => none
        | some r4 =>
          match digit2 r4 with
          | none => none
          | some (d, r5) =>
            if 1 ≤ y ∧ 1 ≤ m ∧ m ≤ 12 ∧ 1 ≤ d ∧ d ≤ daysInMonth (Int.ofNat y) m then
              match r5 with
              | [] => some (⟨Int.ofNat y, m, d, 0, 0, 0⟩, none)
              | c :: r6 =>
                if c = 'T' ∨ c = ' ' then
                  match parseTime r6 with
                  | none => none
                  | some (hh, mi, ss, off) =>
                    some (⟨Int.ofNat y, m, d, hh, mi, ss⟩, off)
                else none
            else none

/-- Embedding of parse_datetime (source lines 73-84): parse the string;
if the result carries no offset, localize it in Europe/Warsaw; on parse
failure return the None sentinel instead of raising. -/
def parse_datetime (s : String) : Option AwareDT :=
  match fromisoformat s with
  | none => none
  | some (n, some off) => some ⟨n, off⟩
  | some (n, none) => some ⟨n, warsawOffset n⟩

/-- Embedding of is_recent (source lines 87-93): a missing date is never
recent; otherwise compare the instant against now minus the window.  The
source computes now inside the function via datetime.now in the Warsaw
timezone; it is passed here explicitly as the absolute instant. -/
def is_recent (article_date : Option AwareDT) (hours : Int) (now : Int) : Bool :=
  match article_date with
  | none => false
  | some d => decide (instantOf d ≥ now - hours * 3600)

/-! ## Document model for one candidate block

The source queries a BeautifulSoup document.  One candidate block is a
div of class article (line 101); inside it the source only ever asks the
queries below, so a candidate is embedded as the record of their results:
find span.entry-title and its first anchor with href and stripped text,
find div.entry-meta and a time.entry-date inside it, find a
time.entry-date directly under the block (the fallback of line 145), and
find div.entry-content with its first p.  For the p element the source
may first decompose an a.more-link child and then take the stripped
text, so the model carries the text both with and without that child. -/

/-- Result of querying an anchor: its href attribute (absent or present,
possibly empty) and its stripped text. -/
structure ATag where
  href : Option String
  text : String
deriving DecidableEq, Repr

/-- Result of querying span.entry-title: its first anchor, when any. -/
structure TitleSpan where
  anchor : Option ATag
deriving DecidableEq, Repr

/-- Result of querying a time element: its datetime attribute. -/
structure TimeTag where
  datetimeAttr : Option String
deriving DecidableEq, Repr

/-- Result of querying div.entry-meta: the time.entry-date inside it. -/
structure EntryMeta where
  timeTag : Option TimeTag
deriving DecidableEq, Repr

/-- Result of querying the first p of div.entry-content: whether it has
an a.more-link child, and its stripped text with and without it. -/
structure PTag where
  hasMoreLink : Bool
  textRaw : String
  textNoMore : String
deriving DecidableEq, Repr

/-- Result of querying div.entry-content: its first p, when any. -/
structure EntryContent where
  pTag : Option PTag
deriving DecidableEq, Repr

/-- One candidate block (div.article) as the record of the query results
the extractor asks of it. -/
structure Candidate where
  entryTitle : Option TitleSpan
  entryMeta : Option EntryMeta
  timeDirect : Option TimeTag
  entryContent : Option EntryContent
deriving DecidableEq, Repr

/-- The article record built by the extractor (dict of lines 173-179). -/
structure Article where
  title : String
  link : String
  description : String
  pub_date : AwareDT
  guid : String
deriving DecidableEq, Repr

/-! ## Link resolution and extraction (lines 96-190) -/

/-- Model of the Python str.startswith test, over the character lists of
the two strings. -/
def strStartsWith (s : String) (pre : String) : Bool :=
  pre.data.isPrefixOf s.data

/-- Whether a relative reference carries its own scheme: a colon occurs
before any slash. -/
def hasSchemeColon (s : String) : Bool :=
  (s.data.takeWhile (fun c => c ≠ '/')).contains ':'

/-- Model of urllib.parse.urljoin for the base used by the source, a
scheme-and-host URL with empty path: a protocol-relative reference takes
the https scheme, a rooted path attaches to the base, a reference with
its own scheme stands alone, and any other relative path resolves to the
root of the base. -/
def urljoin (base : String) (rel : String) : String :=
  if rel = "" then base
  else if strStartsWith rel "//" then "https:" ++ rel
  else if strStartsWith rel "/" then base ++ rel
  else if hasSchemeColon rel then rel
  else base ++ "/" ++ rel

/-- The body-excerpt extraction of lines 160-171: the stripped text of
the first p of div.entry-content after removing an a.more-link child,
and the empty string when the content div or the p is absent. -/
def extractDescription (c : Candidate) : String :=
  match c.entryContent with
  | none => ""
  | some ec =>
    match ec.pTag with
    | none => ""
    | some p => if p.hasMoreLink then p.textNoMore else p.textRaw

/-- The time-tag lookup of lines 136-145: the time.entry-date inside
div.entry-meta when both exist, otherwise the time.entry-date found
directly under the candidate block. -/
def findTimeTag (c : Candidate) : Option TimeTag :=
  match c.entryMeta with
  | some meta =>
    match meta.timeTag with
    | some t => some t
    | none => c.timeDirect
  | none => c.timeDirect

/-- Embedding of the per-candidate body of extract_articles_from_page
(lines 105-188): each guard that makes the source skip the candidate
returns none, otherwise the article record is built.  The parameter now
is the absolute instant of the datetime.now call inside is_recent. -/
def extractCandidate (now : Int) (c : Candidate) : Option Article :=
  match c.entryTitle with
  | none => none
  | some titleSpan =>
    match titleSpan.anchor with
    | none => none
    | some titleLink =>
      match titleLink.href with
      | none => none
      | some href0 =>
        if href0 = "" then none
        else
          let title := titleLink.text
          let link := if strStartsWith href0 "http" then href0 else urljoin BASE_URL href0
          if strStartsWith link BASE_URL then
            match findTimeTag c with
            | none => none
            | some t =>
              match t.datetimeAttr with
              | none => none
              | some dtStr =>
                if dtStr = "" then none
                else
                  match parse_datetime dtStr with
                  | none => none
                  | some pub_date =>
                    if is_recent (some pub_date) TIME_FILTER_HOURS now then
                      let description0 := extractDescription c
                      let description := if description0 = "" then title else description0
                      some ⟨title, link, description, pub_date, link⟩
                    else none
          else none

/-- Embedding of extract_articles_from_page over the candidate blocks of
one page: the loop of lines 105-190 appends the records of the
candidates that survive every guard, in document order. -/
def extract_articles_from_page (blocks : List Candidate) (now : Int) : List Article :=
  blocks.foldl
    (fun acc c =>
      match extractCandidate now c with
      | some a => acc ++ [a]
      | none => acc)
    []

/-! ## Deduplication (remove_duplicates, lines 193-207) -/

/-- The loop of remove_duplicates: a seen-set of guids and an output
list, extended with each article whose guid was not seen before. -/
def dedupLoop (seen : List String) (acc : List Article) : List Article → List Article
  | [] => acc
  | a :: rest =>
    if a.guid ∈ seen then dedupLoop seen acc rest
    else dedupLoop (a.guid :: seen) (acc ++ [a]) rest

/-- Embedding of remove_duplicates (lines 193-207). -/
def remove_duplicates (articles : List Article) : List Article :=
  dedupLoop [] [] articles

/-- The seen-set recursion of remove_duplicates without the output
accumulator, used to relate the loop to its specification. -/
def dedupeFrom (seen : List String) : List Article → List Article
  | [] => []
  | a :: rest =>
    if a.guid ∈ seen then dedupeFrom seen rest
    else a :: dedupeFrom (a.guid :: seen) rest

/-- Specification-side deduplication, written from the words of the
spec: keep the first record of each distinct guid, in input order, by
retaining the head and dropping every later record that shares its guid.
Stated for comparison with remove_duplicates. -/
def dedupeSpec : List Article → List Article
  | [] => []
  | a :: rest => a :: dedupeSpec (rest.filter (fun b => b.guid ≠ a.guid))
termination_by l => l.length
decreasing_by
  simp only [List.length_cons]
  exact Nat.lt_succ_of_le (List.length_filter_le _ _)

/-! ## Feed assembly (generate_rss_feed, lines 210-240)

The source sorts the records with the Python built-in sorted, keyed on
pub_date with reverse true; Python sorted is stable, so the result is
exactly the stable descending sort by the instant of pub_date, embedded
here as a stable insertion sort.  The sorted list is, in order, the list
of entries added to the feed. -/

/-- Stable descending insertion: walk past the records with a strictly
later instant and place the new record before the first record whose
instant is not later, so earlier input stays first among equal keys. -/
def insertDesc (a : Article) : List Article → List Article
  | [] => [a]
  | b :: l =>
    if instantOf a.pub_date < instantOf b.pub_date then b :: insertDesc a l
    else a :: b :: l

/-- Stable sort of the records by pub_date instant, newest first. -/
def sortByDateDesc : List Article → List Article
  | [] => []
  | a :: l => insertDesc a (sortByDateDesc l)

/-- Embedding of the entry order of generate_rss_feed (lines 224-235):
the records sorted newest first, as added to the feed generator. -/
def generate_rss_feed (articles : List Article) : List Article :=
  sortByDateDesc articles

/-! ## Page fetching (fetch_page, lines 51-70)

The HTTP transport is external; it is embedded as an oracle giving the
outcome of each attempt: some content when the request of that attempt
index succeeds, none when it raises a RequestException.  The embedding
records the result, the sleep delays performed between attempts, and the
number of attempts made. -/

/-- Observable behaviour of one fetch_page call. -/
structure FetchResult where
  result : Option String
  delays : List Nat
  attemptsMade : Nat
deriving DecidableEq, Repr

/-- The retry loop of fetch_page, at a given attempt index: on success
return the response; on failure, when further attempts remain, sleep
for attempt-plus-one times two seconds and retry, otherwise return the
None failure signal.  The first argument counts the attempts still
available, so the recursion is structural; the loop of the source always
starts with fuel equal to retry, which keeps the two in step. -/
def fetchAux (outcome : Nat → Option String) (retry : Nat) : Nat → Nat → FetchResult
  | 0, _ => ⟨none, [], 0⟩
  | fuel + 1, attempt =>
    if attempt < retry then
      match outcome attempt with
      | some c => ⟨some c, [], 1⟩
      | none =>
        if attempt < retry - 1 then
          let r := fetchAux outcome retry fuel (attempt + 1)
          ⟨r.result, (attempt + 1) * 2 :: r.delays, r.attemptsMade + 1⟩
        else ⟨none, [], 1⟩
    else ⟨none, [], 0⟩

/-- Embedding of fetch_page (lines 51-70): run the retry loop from
attempt index zero; the default retry count of the source is three. -/
def fetch_page (outcome : Nat → Option String) (retry : Nat) : FetchResult :=
  fetchAux outcome retry retry 0

/-! ## Pipeline driver (main, lines 247-311)

Fetching and extraction per page are summarised by the list of article
lists the pages contribute (a fetch failure or an empty page contributes
the empty list).  The diagnostic fetch of the empty branch is a fresh
oracle: some text when requests.get returns, none when the dump attempt
fails.  The outcome records the exit status, the feed entries written
(none when no feed file is written), the requests issued on the debug
path as url-timeout pairs, and the text written to debug.html. -/

/-- Observable outcome of one run of main. -/
structure RunOutcome where
  exitCode : Nat
  feedWritten : Option (List Article)
  debugRequests : List (String × Nat)
  debugFileWritten : Option String
deriving DecidableEq, Repr

/-- Embedding of main after page accumulation (lines 288-311): when the
accumulator is empty, issue one fresh request for the first listing page
with a ten-second timeout, write its text to debug.html when it
succeeds, and return status one without writing the feed; otherwise
dedupe, sort, write the feed and return status zero. -/
def runMain (pages : List (List Article)) (debugFetch : Option String) : RunOutcome :=
  let all_articles := pages.foldl (fun acc p => acc ++ p) []
  if all_articles.isEmpty then
    ⟨1, none, [(NEWS_URL, 10)], debugFetch⟩
  else
    ⟨0, some (generate_rss_feed (remove_duplicates all_articles)), [], none⟩

/-! ## Origin of a URL

Used only to state the origin claim; the program itself never computes
an origin. -/

/-- Split a character list at the scheme separator, keeping both parts. -/
def afterSchemeSep : List Char → Option (List Char × List Char)
  | [] => none
  | ':' :: '/' :: '/' :: rest => some ([':', '/', '/'], rest)
  | c :: rest =>
    match afterSchemeSep rest with
    | none => none
    | some (pre, post) => some (c :: pre, post)

/-- The origin of an absolute URL: scheme, separator and authority, up
to the first slash of the path. -/
def urlOrigin (s : String) : String :=
  match afterSchemeSep s.data with
  | none => s
  | some (pre, post) => String.mk (pre ++ post.takeWhile (fun c => c ≠ '/'))

/-! ## Concrete sample inputs -/

/-- Reference instant, the publication instant of the sample candidates,
at which they pass the recency filter. -/
def sampleNow : Int := instantOf ⟨⟨2025, 12, 30, 11, 44, 0⟩, 60⟩

/-- A candidate whose href begins with the BASE_URL text but lies on a
different host, so its origin differs from the configured origin. -/
def externalHostCandidate : Candidate :=
  ⟨some ⟨some ⟨some "https://www.bankier.pl.evil.com/a", "Title"⟩⟩,
   none, some ⟨some "2025-12-30T11:44:00+01:00"⟩, none⟩

/-- A fully well-formed candidate of the configured site. -/
def siteCandidate : Candidate :=
  ⟨some ⟨some ⟨some "/wiadomosc/x.html", "Title"⟩⟩,
   none, some ⟨some "2025-12-30T11:44:00+01:00"⟩, none⟩

/-- A well-formed candidate whose title anchor has empty stripped text
and whose block has no entry-content div. -/
def emptyTitleCandidate : Candidate :=
  ⟨some ⟨some ⟨some "/wiadomosc/x.html", ""⟩⟩,
   none, some ⟨some "2025-12-30T11:44:00+01:00"⟩, none⟩

/-- A candidate with no entry-title span; the extractor skips it. -/
def malformedCandidate : Candidate :=
  ⟨none, none, none, none⟩

/-- A sample article record. -/
def sampleArticle : Article :=
  ⟨"t", "https://www.bankier.pl/a", "d", ⟨⟨2025, 1, 1, 0, 0, 0⟩, 60⟩,
   "https://www.bankier.pl/a"⟩

/-- The record the extractor builds from siteCandidate at sampleNow. -/
def sampleExtracted : Article :=
  ⟨"Title", "https://www.bankier.pl/wiadomosc/x.html", "Title",
   ⟨⟨2025, 12, 30, 11, 44, 0⟩, 60⟩, "https://www.bankier.pl/wiadomosc/x.html"⟩

/-! ## Theorems -/

set_option maxRecDepth 40000

/-- Claim C3: for every timezone-aware instant, window and reference
instant, is_recent answers true exactly when the instant is at least the
reference minus the window; the boundary instant exactly at the cutoff
counts as recent, and a missing instant is never recent. -/
theorem claim_C3 : ∀ (t : AwareDT) (w now : Int),
    (is_recent (some t) w now = true ↔ now - w * 3600 ≤ instantOf t)
    ∧ is_recent (some t) w (instantOf t + w * 3600) = true
    ∧ is_recent none w now = false := by
  intro t w now
  refine ⟨?_, ?_, rfl⟩
  · simp [is_recent, ge_iff_le]
  · simp only [is_recent, ge_iff_le, decide_eq_true_eq]
    omega

/-- Claim C4: a parseable timestamp with no explicit offset is localized
in the fixed Europe-Warsaw timezone: the result keeps the naive parts
and takes the Warsaw offset, which is never the UTC offset zero, and the
result disagrees with localization under any timezone that assigns this
naive timestamp a different offset; an unparseable string yields the
None sentinel. -/
theorem claim_C4 : ∀ (s : String) (n : NaiveDT),
    (fromisoformat s = some (n, none) →
        parse_datetime s = some ⟨n, warsawOffset n⟩
        ∧ warsawOffset n ≠ 0
        ∧ ∀ tz : NaiveDT → Int, tz n ≠ warsawOffset n →
            parse_datetime s ≠ some ⟨n, tz n⟩)
    ∧ (fromisoformat s = none → parse_datetime s = none) := by
  intro s n
  constructor
  · intro h
    have hp : parse_datetime s = some ⟨n, warsawOffset n⟩ := by
      simp [parse_datetime, h]
    refine ⟨hp, ?_, ?_⟩
    · simp only [warsawOffset]
      split <;> omega
    · intro tz htz heq
      rw [hp] at heq
      exact htz (congrArg AwareDT.offsetMinutes (Option.some.inj heq)).symm
  · intro h
    simp [parse_datetime, h]

/-- Claim C4 witness: the sample offset-free timestamp parses to its
Warsaw localization (December, standard time, offset 60 minutes), and a
sample unparseable string maps to the None sentinel. -/
theorem claim_C4_witness :
    parse_datetime "2025-12-30T11:44:00" = some ⟨⟨2025, 12, 30, 11, 44, 0⟩, 60⟩
    ∧ parse_datetime "garbage" = none := by
  constructor
  · have h := (claim_C4 "2025-12-30T11:44:00" ⟨2025, 12, 30, 11, 44, 0⟩).1 (by decide)
    have hoff : warsawOffset ⟨2025, 12, 30, 11, 44, 0⟩ = 60 := by decide
    rw [h.1, hoff]
  · exact (claim_C4 "garbage" ⟨2025, 12, 30, 11, 44, 0⟩).2 (by decide)

/-- The loop of remove_duplicates only ever appends to its accumulator,
so it equals the accumulator followed by the accumulator-free
recursion. -/
theorem dedupLoop_eq : ∀ (xs : List Article) (seen : List String) (acc : List Article),
    dedupLoop seen acc xs = acc ++ dedupeFrom seen xs := by
  intro xs
  induction xs with
  | nil => intro seen acc; simp [dedupLoop, dedupeFrom]
  | cons a rest ih =>
    intro seen acc
    by_cases h : a.guid ∈ seen
    · simp [dedupLoop, dedupeFrom, h, ih]
    · simp [dedupLoop, dedupeFrom, h, ih]

/-- The seen-set recursion keeps the first record of each guid not yet
seen: it equals the specification dedup applied to the records whose
guid is outside the seen set. -/
theorem dedupeFrom_eq_spec : ∀ (xs : List Article) (seen : List String),
    dedupeFrom seen xs = dedupeSpec (xs.filter (fun a => decide (a.guid ∉ seen))) := by
  intro xs
  induction xs with
  | nil => intro seen; simp [dedupeFrom, dedupeSpec]
  | cons a rest ih =>
    intro seen
    by_cases h : a.guid ∈ seen
    · simp only [dedupeFrom, if_pos h, List.filter_cons]
      rw [ih]
      simp [h]
    · have hfilter : List.filter (fun x : Article => decide (x.guid ∉ seen)) (a :: rest)
          = a :: List.filter (fun x : Article => decide (x.guid ∉ seen)) rest := by
        simp [h]
      rw [hfilter]
      simp only [dedupeFrom, if_neg h, dedupeSpec]
      congr 1
      rw [ih (a.guid :: seen), List.filter_filter]
      congr 1
      apply List.filter_congr
      intro b _
      simp only [List.mem_cons]
      by_cases h1 : b.guid = a.guid <;> by_cases h2 : b.guid ∈ seen <;> simp [h1, h2]

/-- remove_duplicates computes exactly the specification dedup: first
occurrence of each guid wins, survivors keep input order. -/
theorem remove_duplicates_eq_spec (xs : List Article) :
    remove_duplicates xs = dedupeSpec xs := by
  unfold remove_duplicates
  rw [dedupLoop_eq, dedupeFrom_eq_spec]
  simp

/-- The specification dedup returns a sublist of its input. -/
theorem dedupeSpec_sublist : ∀ xs : List Article, List.Sublist (dedupeSpec xs) xs := by
  intro xs
  induction xs using dedupeSpec.induct with
  | case1 => simp [dedupeSpec]
  | case2 a rest ih =>
    simp only [dedupeSpec]
    exact (ih.trans (List.filter_sublist rest)).cons₂ a

/-- The guids of the specification dedup output are pairwise distinct. -/
theorem dedupeSpec_pairwise : ∀ xs : List Article,
    List.Pairwise (fun a b => a.guid ≠ b.guid) (dedupeSpec xs) := by
  intro xs
  induction xs using dedupeSpec.induct with
  | case1 => simp [dedupeSpec]
  | case2 a rest ih =>
    simp only [dedupeSpec]
    refine List.Pairwise.cons ?_ ih
    intro b hb
    have hmem := (dedupeSpec_sublist _).subset hb
    have := List.of_mem_filter hmem
    simp only [decide_eq_true_eq] at this
    exact fun hab => this (hab.symm)

/-- On a list whose guids are already pairwise distinct the
specification dedup is the identity. -/
theorem dedupeSpec_eq_of_pairwise : ∀ xs : List Article,
    List.Pairwise (fun a b => a.guid ≠ b.guid) xs → dedupeSpec xs = xs := by
  intro xs
  induction xs with
  | nil => intro _; simp [dedupeSpec]
  | cons a rest ih =>
    intro hp
    rcases List.pairwise_cons.mp hp with ⟨ha, hrest⟩
    simp only [dedupeSpec]
    have hf : rest.filter (fun b => decide (b.guid ≠ a.guid)) = rest := by
      apply List.filter_eq_self.mpr
      intro b hb
      simp [(ha b hb).symm]
    rw [hf, ih hrest]

/-- Claim C5: remove_duplicates is idempotent, it equals the
specification dedup keyed on guid that keeps the first occurrence of
each guid, and its output is a sublist of the input, so survivors keep
their relative input order. -/
theorem claim_C5 : ∀ xs : List Article,
    remove_duplicates (remove_duplicates xs) = remove_duplicates xs
    ∧ remove_duplicates xs = dedupeSpec xs
    ∧ List.Sublist (remove_duplicates xs) xs := by
  intro xs
  have hspec := remove_duplicates_eq_spec xs
  refine ⟨?_, hspec, ?_⟩
  · rw [hspec, remove_duplicates_eq_spec]
    exact dedupeSpec_eq_of_pairwise _ (dedupeSpec_pairwise xs)
  · rw [hspec]
    exact dedupeSpec_sublist xs

/-- Stable insertion keeps the multiset: inserting a record permutes it
to the front. -/
theorem insertDesc_perm (a : Article) : ∀ l : List Article,
    List.Perm (insertDesc a l) (a :: l) := by
  intro l
  induction l with
  | nil => simp [insertDesc]
  | cons b t ih =>
    simp only [insertDesc]
    split
    · exact (ih.cons b).trans (List.Perm.swap a b t)
    · exact List.Perm.refl _

/-- The stable sort permutes its input. -/
theorem sortByDateDesc_perm : ∀ l : List Article,
    List.Perm (sortByDateDesc l) l := by
  intro l
  induction l with
  | nil => simp [sortByDateDesc]
  | cons a t ih =>
    simpa [sortByDateDesc] using (insertDesc_perm a (sortByDateDesc t)).trans (ih.cons a)

/-- Stable insertion preserves the newest-first ordering. -/
theorem sorted_insertDesc (a : Article) : ∀ l : List Article,
    List.Sorted (fun x y => instantOf y.pub_date ≤ instantOf x.pub_date) l →
    List.Sorted (fun x y => instantOf y.pub_date ≤ instantOf x.pub_date) (insertDesc a l) := by
  intro l
  induction l with
  | nil => intro _; simp [insertDesc]
  | cons b t ih =>
    intro hs
    rcases List.sorted_cons.mp hs with ⟨hb, ht⟩
    simp only [insertDesc]
    split
    · rename_i hlt
      apply List.sorted_cons.mpr
      refine ⟨?_, ih ht⟩
      intro x hx
      rcases List.mem_cons.mp ((insertDesc_perm a t).mem_iff.mp hx) with hxa | hxt
      · subst hxa; exact le_of_lt hlt
      · exact hb x hxt
    · rename_i hge
      apply List.sorted_cons.mpr
      refine ⟨?_, hs⟩
      intro x hx
      rcases List.mem_cons.mp hx with hxb | hxt
      · subst hxb; exact not_lt.mp hge
      · exact le_trans (hb x hxt) (not_lt.mp hge)

/-- The stable sort output is ordered newest first. -/
theorem sorted_sortByDateDesc : ∀ l : List Article,
    List.Sorted (fun x y => instantOf y.pub_date ≤ instantOf x.pub_date)
      (sortByDateDesc l) := by
  intro l
  induction l with
  | nil => simp [sortByDateDesc]
  | cons a t ih => exact sorted_insertDesc a _ ih

/-- Stability of one insertion: among the records of one given instant,
the inserted record lands first when it carries that instant and the
rest keep their order. -/
theorem filter_insertDesc (d : Int) (a : Article) : ∀ l : List Article,
    (insertDesc a l).filter (fun x => decide (instantOf x.pub_date = d))
      = if instantOf a.pub_date = d
        then a :: l.filter (fun x => decide (instantOf x.pub_date = d))
        else l.filter (fun x => decide (instantOf x.pub_date = d)) := by
  intro l
  induction l with
  | nil => by_cases hd : instantOf a.pub_date = d <;> simp [insertDesc, hd]
  | cons b t ih =>
    simp only [insertDesc]
    split
    · rename_i hlt
      by_cases hd : instantOf a.pub_date = d
      · have hbd : decide (instantOf b.pub_date = d) = false := by
          simp only [decide_eq_false_iff_not]
          omega
        simp [List.filter_cons, hbd, ih, hd]
      · simp only [List.filter_cons, ih, if_neg hd]
    · rename_i hge
      by_cases hd : instantOf a.pub_date = d <;> simp [List.filter_cons, hd]

/-- Stability of the sort: filtering the output to the records of one
given instant returns them in input order. -/
theorem filter_sortByDateDesc (d : Int) : ∀ xs : List Article,
    (sortByDateDesc xs).filter (fun x => decide (instantOf x.pub_date = d))
      = xs.filter (fun x => decide (instantOf x.pub_date = d)) := by
  intro xs
  induction xs with
  | nil => simp [sortByDateDesc]
  | cons a t ih =>
    simp only [sortByDateDesc, filter_insertDesc, ih, List.filter_cons]
    by_cases hd : instantOf a.pub_date = d <;> simp [hd]

/-- Claim C6: feed assembly emits the records sorted by publication
instant descending; it permutes the input, and for every instant the
records carrying it appear in their original relative order, so ties
keep the stable input order. -/
theorem claim_C6 : ∀ xs : List Article,
    List.Sorted (fun x y => instantOf y.pub_date ≤ instantOf x.pub_date)
      (generate_rss_feed xs)
    ∧ List.Perm (generate_rss_feed xs) xs
    ∧ ∀ d : Int,
        (generate_rss_feed xs).filter (fun x => decide (instantOf x.pub_date = d))
          = xs.filter (fun x => decide (instantOf x.pub_date = d)) := by
  intro xs
  exact ⟨sorted_sortByDateDesc xs, sortByDateDesc_perm xs,
    fun d => filter_sortByDateDesc d xs⟩

/-- Invariant of the retry loop from any attempt index: the number of
attempts is bounded by the remaining fuel, the waits performed are the
linear backoff of two seconds times the one-based attempt number, and
when every remaining attempt fails the loop reports the failure
signal. -/
theorem fetchAux_spec (o : Nat → Option String) (r : Nat) : ∀ (fuel attempt : Nat),
    (fetchAux o r fuel attempt).attemptsMade ≤ fuel
    ∧ (∀ (k : Nat) (h : k < (fetchAux o r fuel attempt).delays.length),
        (fetchAux o r fuel attempt).delays.get ⟨k, h⟩ = (attempt + k + 1) * 2)
    ∧ ((∀ i : Nat, attempt ≤ i → i < r → o i = none) →
        (fetchAux o r fuel attempt).result = none) := by
  intro fuel
  induction fuel with
  | zero =>
    intro attempt
    refine ⟨Nat.le_refl 0, ?_, fun _ => rfl⟩
    intro k h
    simp [fetchAux] at h
  | succ fuel ih =>
    intro attempt
    by_cases hlt : attempt < r
    · cases ho : o attempt with
      | some c =>
        have he : fetchAux o r (fuel + 1) attempt = ⟨some c, [], 1⟩ := by
          simp [fetchAux, hlt, ho]
        rw [he]
        refine ⟨Nat.succ_le_succ (Nat.zero_le fuel), ?_, ?_⟩
        · intro k h; simp at h
        · intro hall
          exact absurd (hall attempt (Nat.le_refl attempt) hlt) (by simp [ho])
      | none =>
        by_cases hlast : attempt < r - 1
        · have he : fetchAux o r (fuel + 1) attempt
              = ⟨(fetchAux o r fuel (attempt + 1)).result,
                 (attempt + 1) * 2 :: (fetchAux o r fuel (attempt + 1)).delays,
                 (fetchAux o r fuel (attempt + 1)).attemptsMade + 1⟩ := by
            simp [fetchAux, hlt, ho, hlast]
          rw [he]
          obtain ⟨ih1, ih2, ih3⟩ := ih (attempt + 1)
          refine ⟨Nat.succ_le_succ ih1, ?_, ?_⟩
          · intro k h
            cases k with
            | zero => simp
            | succ k =>
              have h2 : k < (fetchAux o r fuel (attempt + 1)).delays.length := by
                simpa using h
              have hget : ((attempt + 1) * 2 :: (fetchAux o r fuel (attempt + 1)).delays).get
                  ⟨k + 1, h⟩ = (fetchAux o r fuel (attempt + 1)).delays.get ⟨k, h2⟩ := rfl
              rw [hget, ih2 k h2]
              omega
          · intro hall
            exact ih3 (fun i hi hir => hall i (Nat.le_trans (Nat.le_succ attempt) hi) hir)
        · have he : fetchAux o r (fuel + 1) attempt = ⟨none, [], 1⟩ := by
            simp [fetchAux, hlt, ho, hlast]
          rw [he]
          refine ⟨Nat.succ_le_succ (Nat.zero_le fuel), ?_, fun _ => rfl⟩
          intro k h; simp at h
    · have he : fetchAux o r (fuel + 1) attempt = ⟨none, [], 0⟩ := by
        simp [fetchAux, hlt]
      rw [he]
      refine ⟨Nat.zero_le _, ?_, fun _ => rfl⟩
      intro k h; simp at h

/-- Claim C7: fetch_page makes at most retry attempts; before retry
number k it waits k times the two-second base, the linear backoff of
two, four, six seconds; when every attempt fails it returns the None
failure signal instead of raising. -/
theorem claim_C7 : ∀ (outcome : Nat → Option String) (retry : Nat),
    (fetch_page outcome retry).attemptsMade ≤ retry
    ∧ (∀ (k : Nat) (h : k < (fetch_page outcome retry).delays.length),
        (fetch_page outcome retry).delays.get ⟨k, h⟩ = (k + 1) * 2)
    ∧ ((∀ i : Nat, i < retry → outcome i = none) →
        (fetch_page outcome retry).result = none) := by
  intro outcome retry
  obtain ⟨h1, h2, h3⟩ := fetchAux_spec outcome retry retry 0
  refine ⟨h1, ?_, fun hall => h3 (fun i _ hir => hall i hir)⟩
  intro k h
  have hk := h2 k h
  simpa using hk

/-- Claim C7 witness: with the default three attempts all failing, the
first wait is two seconds, the second wait is four seconds, and the
result is the None failure signal. -/
theorem claim_C7_witness :
    (fetch_page (fun _ => none) 3).result = none
    ∧ (fetch_page (fun _ => none) 3).delays.get ⟨0, by decide⟩ = 2
    ∧ (fetch_page (fun _ => none) 3).delays.get ⟨1, by decide⟩ = 4 :=
  ⟨(claim_C7 (fun _ => none) 3).2.2 (fun _ _ => rfl),
   (claim_C7 (fun _ => none) 3).2.1 0 (by decide),
   (claim_C7 (fun _ => none) 3).2.1 1 (by decide)⟩

/-- The extraction loop of one page keeps only appending to its
accumulator, so it equals the accumulator followed by the per-candidate
results. -/
theorem extract_foldl (now : Int) : ∀ (blocks : List Candidate) (acc : List Article),
    blocks.foldl
      (fun acc c =>
        match extractCandidate now c with
        | some a => acc ++ [a]
        | none => acc)
      acc
    = acc ++ blocks.filterMap (extractCandidate now) := by
  intro blocks
  induction blocks with
  | nil => intro acc; simp
  | cons c rest ih =>
    intro acc
    cases h : extractCandidate now c with
    | none => simp [List.foldl_cons, h, ih, List.filterMap_cons]
    | some a => simp [List.foldl_cons, h, ih, List.filterMap_cons]

/-- Page extraction is exactly the independent per-candidate map,
dropping the candidates the extractor skips. -/
theorem extract_eq_filterMap (blocks : List Candidate) (now : Int) :
    extract_articles_from_page blocks now = blocks.filterMap (extractCandidate now) := by
  unfold extract_articles_from_page
  simpa using extract_foldl now blocks []

/-- Claim C2: extraction is the total per-candidate map over the page,
so it returns an empty or shortened list instead of failing abruptly, and
it treats candidates independently: removing one skipped (malformed)
candidate leaves the records of the sibling candidates unchanged. -/
theorem claim_C2 :
    (∀ (blocks : List Candidate) (now : Int),
        extract_articles_from_page blocks now = blocks.filterMap (extractCandidate now))
    ∧ ∀ (now : Int) (xs ys : List Candidate) (bad : Candidate),
        extractCandidate now bad = none →
        extract_articles_from_page (xs ++ bad :: ys) now
          = extract_articles_from_page (xs ++ ys) now := by
  constructor
  · exact extract_eq_filterMap
  · intro now xs ys bad h
    rw [extract_eq_filterMap, extract_eq_filterMap]
    simp [List.filterMap_append, List.filterMap_cons, h]

/-- Claim C2 witness: a candidate with no entry-title span contributes
nothing, and the page with only that candidate extracts to the same
empty list as the empty page. -/
theorem claim_C2_witness :
    extract_articles_from_page [malformedCandidate] 0
      = extract_articles_from_page [] 0 :=
  claim_C2.2 0 [] [] malformedCandidate rfl

/-- Claim C1, amended: every record the extractor constructs has a link
that begins with the BASE_URL text, since the guard of the source is the
str.startswith test against BASE_URL; the guard is a textual check, not
an origin comparison. -/
theorem claim_C1 (now : Int) (c : Candidate) (r : Article) :
    extractCandidate now c = some r → strStartsWith r.link BASE_URL = true := by
  intro h
  simp only [extractCandidate] at h
  repeat' split at h
  all_goals try exact Option.noConfusion h
  all_goals (injection h with h2; subst h2; assumption)

/-- Claim C1 counterexample: a candidate whose href lies on the host
www.bankier.pl.evil.com — an origin different from the configured one —
passes the guard and produces a record, because its text begins with
BASE_URL. -/
theorem claim_C1_counterexample :
    (extractCandidate sampleNow externalHostCandidate).map (fun r => urlOrigin r.link)
      = some "https://www.bankier.pl.evil.com"
    ∧ urlOrigin BASE_URL = "https://www.bankier.pl"
    ∧ ("https://www.bankier.pl.evil.com" : String) ≠ "https://www.bankier.pl" := by
  refine ⟨by decide, by decide, by decide⟩

/-- Claim C1 witness: the record extracted from the well-formed sample
candidate has a link beginning with BASE_URL. -/
theorem claim_C1_witness :
    strStartsWith sampleExtracted.link BASE_URL = true :=
  claim_C1 sampleNow siteCandidate sampleExtracted (by decide)

/-- Claim C9, amended: the description of every constructed record is
the body excerpt when one is extractable and non-empty, and otherwise
falls back to the title; hence it is non-empty whenever the title is
non-empty (but it is empty when both the excerpt and the title are
empty). -/
theorem claim_C9 (now : Int) (c : Candidate) (r : Article) :
    extractCandidate now c = some r →
    (extractDescription c = "" → r.description = r.title)
    ∧ (extractDescription c ≠ "" → r.description = extractDescription c)
    ∧ (r.title ≠ "" → r.description ≠ "") := by
  intro h
  simp only [extractCandidate] at h
  repeat' split at h
  all_goals try exact Option.noConfusion h
  all_goals (injection h with h2; subst h2)
  all_goals refine ⟨fun hd => ?_, fun hd => ?_, fun ht => ?_⟩
  all_goals simp_all

/-- Claim C9 counterexample: a candidate whose title anchor has empty
stripped text and whose block has no body excerpt produces a record
whose description is the empty string. -/
theorem claim_C9_counterexample :
    (extractCandidate sampleNow emptyTitleCandidate).map Article.description
      = some "" := by
  decide

/-- Claim C9 witness: the record extracted from the sample candidate,
which has no body excerpt, takes its title as description, and that
description is non-empty because the title is. -/
theorem claim_C9_witness :
    sampleExtracted.description = sampleExtracted.title
    ∧ sampleExtracted.description ≠ "" :=
  ⟨(claim_C9 sampleNow siteCandidate sampleExtracted (by decide)).1 (by decide),
   (claim_C9 sampleNow siteCandidate sampleExtracted (by decide)).2.2 (by decide)⟩

/-- The sort of feed assembly keeps the number of records. -/
theorem generate_rss_feed_length (l : List Article) :
    (generate_rss_feed l).length = l.length :=
  (sortByDateDesc_perm l).length_eq

/-- Deduplication of a non-empty list is non-empty: the head always
survives. -/
theorem remove_duplicates_ne_nil (xs : List Article) (h : xs ≠ []) :
    remove_duplicates xs ≠ [] := by
  rw [remove_duplicates_eq_spec]
  cases xs with
  | nil => exact absurd rfl h
  | cons a t => simp [dedupeSpec]

/-- Claim C8: when the accumulated article list is empty the run writes
no feed, attempts the diagnostic dump and exits with status one;
otherwise it writes the feed assembled from the deduplicated records,
that feed holds at least one article, and the run exits with status
zero. -/
theorem claim_C8 : ∀ (pages : List (List Article)) (debugFetch : Option String),
    (pages.foldl (fun acc p => acc ++ p) [] = [] →
        runMain pages debugFetch = ⟨1, none, [(NEWS_URL, 10)], debugFetch⟩)
    ∧ (pages.foldl (fun acc p => acc ++ p) [] ≠ [] →
        (runMain pages debugFetch).exitCode = 0
        ∧ (runMain pages debugFetch).feedWritten
            = some (generate_rss_feed (remove_duplicates
                (pages.foldl (fun acc p => acc ++ p) [])))
        ∧ ∀ entries : List Article,
            (runMain pages debugFetch).feedWritten = some entries →
            0 < entries.length) := by
  intro pages debugFetch
  constructor
  · intro hempty
    simp [runMain, hempty]
  · intro hne
    have hiff : (pages.foldl (fun acc p => acc ++ p) []).isEmpty = false := by
      cases hcase : pages.foldl (fun acc p => acc ++ p) [] with
      | nil => exact absurd hcase hne
      | cons a t => rfl
    refine ⟨by simp [runMain, hiff], by simp [runMain, hiff], ?_⟩
    intro entries hent
    have hfeed : (runMain pages debugFetch).feedWritten
        = some (generate_rss_feed (remove_duplicates
            (pages.foldl (fun acc p => acc ++ p) []))) := by
      simp [runMain, hiff]
    rw [hfeed] at hent
    have hent2 := Option.some.inj hent
    rw [← hent2, generate_rss_feed_length]
    exact List.length_pos.mpr (remove_duplicates_ne_nil _ hne)

/-- Claim C8 witness: the empty run exits with status one, writes no
feed and attempts the dump; the run with one sample article exits with
status zero and writes the assembled feed. -/
theorem claim_C8_witness :
    runMain [] none = ⟨1, none, [(NEWS_URL, 10)], none⟩
    ∧ (runMain [[sampleArticle]] none).exitCode = 0
    ∧ (runMain [[sampleArticle]] none).feedWritten
        = some (generate_rss_feed (remove_duplicates [sampleArticle])) :=
  ⟨(claim_C8 [] none).1 rfl,
   ((claim_C8 [[sampleArticle]] none).2 (by decide)).1,
   ((claim_C8 [[sampleArticle]] none).2 (by decide)).2.1⟩

/-- Claim C10: on the empty-result path the run issues exactly one
fresh request, for the first listing page with a ten-second timeout and
no retry loop; the text written to debug.html is exactly the response of
that fresh request, and whether the dump succeeds or fails the run still
exits with status one. -/
theorem claim_C10 : ∀ (pages : List (List Article)) (debugFetch : Option String),
    pages.foldl (fun acc p => acc ++ p) [] = [] →
    (runMain pages debugFetch).debugRequests = [(NEWS_URL, 10)]
    ∧ (runMain pages debugFetch).debugFileWritten = debugFetch
    ∧ (runMain pages debugFetch).exitCode = 1 := by
  intro pages debugFetch hempty
  refine ⟨?_, ?_, ?_⟩ <;> simp [runMain, hempty]

/-- Claim C10 witness: with no articles, a failing dump attempt writes
nothing and the run still exits with status one, while a successful dump
issues the single fresh request for the listing page. -/
theorem claim_C10_witness :
    (runMain [[]] none).debugFileWritten = none
    ∧ (runMain [[]] none).exitCode = 1
    ∧ (runMain [[]] (some "page")).debugRequests = [(NEWS_URL, 10)] :=
  ⟨(claim_C10 [[]] none rfl).2.1,
   (claim_C10 [[]] none rfl).2.2,
   (claim_C10 [[]] (some "page") rfl).1⟩

end BankierRss
